import Mathlib

/-!
Shallow embedding of `src/main.cpp` (gradient PPM emitter).

The program is a single `main` function: it prints a PPM header and then,
in two nested loops over rows `i` and columns `j`, a pixel line of three
integers, with a progress message on the diagnostic stream before each row
and a completion message at the end.

Modelling conventions:
* C++ `double` arithmetic is modelled with exact rationals (`ℚ`).  Every
  quantity the program computes (`j/255`, `255.999 * c`) is small and far
  from a truncation boundary relative to double rounding error, so the
  exact-rational model yields the same integer channel values.
* `static_cast<int>` on a floating value truncates toward zero; this is
  `cxxTrunc` below.
* Each stream is modelled as the list of strings written to it; the whole
  run is the ordered list of write events `eventTrace` together with the
  exit code.
-/

namespace GradientPPM

/-- Width constant of the image, from main.cpp line 4: 256. -/
def image_width : Nat := 256

/-- Height constant of the image, from main.cpp line 5: 256. -/
def image_height : Nat := 256

/-- C++ `static_cast<int>` applied to a floating-point value: truncation
toward zero. -/
def cxxTrunc (q : ℚ) : ℤ := if 0 ≤ q then ⌊q⌋ else ⌈q⌉

/-- The literal `255.999` of main.cpp, as an exact rational. -/
def multiplier : ℚ := 255999 / 1000

/-- Normalized column coordinate, main.cpp line 12: double(j) / (image_width-1). -/
def rCoord (j : Nat) : ℚ := (j : ℚ) / ((image_width : ℚ) - 1)

/-- Normalized row coordinate, main.cpp line 13: double(i) / (image_height-1). -/
def gCoord (i : Nat) : ℚ := (i : ℚ) / ((image_height : ℚ) - 1)

/-- Blue coordinate, main.cpp line 14: auto b = 0.  An int in the source;
it is only used in the product 255.999 * b, which promotes it to double,
so we model it directly as the rational 0. -/
def bCoord : ℚ := 0

/-- Red intensity, main.cpp line 16: static_cast<int>(255.999 * r). -/
def ir (j : Nat) : ℤ := cxxTrunc (multiplier * rCoord j)

/-- Green intensity, main.cpp line 17: static_cast<int>(255.999 * g). -/
def ig (i : Nat) : ℤ := cxxTrunc (multiplier * gCoord i)

/-- Blue intensity, main.cpp line 18: static_cast<int>(255.999 * b). -/
def ib : ℤ := cxxTrunc (multiplier * bCoord)

/-- The triple of channel values computed for the pixel at row `i`,
column `j` (main.cpp lines 12-18). -/
def pixelColor (i j : Nat) : ℤ × ℤ × ℤ := (ir j, ig i, ib)

/-- Text of one pixel line on the primary stream, as the std::cout
statement of main.cpp line 20 writes it: the three intensities separated
by single spaces. -/
def pixelLine (i j : Nat) : String :=
  toString (pixelColor i j).1 ++ " " ++ toString (pixelColor i j).2.1 ++ " " ++
    toString (pixelColor i j).2.2

/-- Header of the primary stream, written by main.cpp line 7 as the three
lines P3, then width and height, then 255. -/
def headerLines : List String :=
  ["P3", toString image_width ++ " " ++ toString image_height, "255"]

/-- The number printed in the progress message before row `i`:
the source writes `(image_height - 1)` (main.cpp line 10), which does not
depend on `i`. -/
def scanlinesReported ( i : Nat) : Nat := image_height - 1

/-- Diagnostic text written to std::clog before row i by main.cpp line 10:
a carriage return, the words Scanlines remaining, and the reported count
followed by a space. -/
def progressLine (i : Nat) : String :=
  "\rScanlines remaining: " ++ toString (scanlinesReported i) ++ " "

/-- Final diagnostic text written by main.cpp line 24. -/
def doneLine : String := "\rDone.                 \n"

/-- All pixel lines of the primary stream, in the order the two nested
loops of main.cpp (lines 9-22) emit them: rows top to bottom, columns left
to right. -/
def pixelLines : List String :=
  (List.range image_height).flatMap fun i =>
    (List.range image_width).map fun j => pixelLine i j

/-- The entire primary-channel output, line by line. -/
def ppmLines : List String := headerLines ++ pixelLines

/-- A single write performed by the program: to the primary stream
(`std::cout`) or to the diagnostic stream (`std::clog`). -/
inductive Event where
  | primary (s : String)
  | diag (s : String)
deriving DecidableEq

/-- The writes performed while processing row `i`: the diagnostic progress
message, then one primary pixel line per column (main.cpp lines 10-21). -/
def rowEvents (i : Nat) : List Event :=
  Event.diag (progressLine i) ::
    ((List.range image_width).map fun j => Event.primary (pixelLine i j))

/-- Every write `main` performs, in program order: the header, then the
rows, then the completion message (main.cpp lines 7-24). -/
def eventTrace : List Event :=
  headerLines.map Event.primary ++
    (List.range image_height).flatMap rowEvents ++ [Event.diag doneLine]

/-- Exit code of the process: main has no explicit return statement, so it returns 0. -/
def exitCode : Nat := 0

/-- Everything `main` could observe from the outside world; the source
reads none of it (no stdin, no clock, no randomness). -/
structure World where
  stdin : List String
  clock : Nat
  randomSeed : Nat

/-- A complete run of `main` from a given world: the trace of writes and
the exit code.  The world is never consulted, because the source consults
no external input. -/
def runMain (w : World) : List Event × Nat := (eventTrace, exitCode)

/-- The lines written to the primary stream, recovered from a trace. -/
def primaryLines (t : List Event) : List String :=
  t.filterMap fun e =>
    match e with
    | Event.primary s => some s
    | Event.diag _ => none

end GradientPPM

namespace GradientPPM

/-! ### Helper lemmas shared by the claim theorems -/

lemma cxxTrunc_eq_floor {q : ℚ} (h : 0 ≤ q) : cxxTrunc q = ⌊q⌋ := if_pos h

/-- The key numeric fact: truncating `255.999 * (k/255)` recovers `k`
for every integer `0 ≤ k ≤ 255`. -/
lemma cxxTrunc_mul_eq (k : Nat) (hk : k ≤ 255) :
    cxxTrunc (multiplier * ((k : ℚ) / 255)) = k := by
  have hkq : (k : ℚ) ≤ 255 := by exact_mod_cast hk
  have hk0 : (0 : ℚ) ≤ (k : ℚ) := Nat.cast_nonneg k
  have harg : multiplier * ((k : ℚ) / 255) = 255999 * (k : ℚ) / 255000 := by
    unfold multiplier; ring
  have h0 : (0 : ℚ) ≤ multiplier * ((k : ℚ) / 255) := by
    rw [harg]; positivity
  rw [cxxTrunc_eq_floor h0, harg, Int.floor_eq_iff]
  constructor
  · rw [le_div_iff₀ (by norm_num : (0 : ℚ) < 255000)]
    push_cast
    linarith
  · rw [div_lt_iff₀ (by norm_num : (0 : ℚ) < 255000)]
    push_cast
    linarith

lemma rCoord_eq (j : Nat) : rCoord j = (j : ℚ) / 255 := by
  unfold rCoord image_width; norm_num

lemma gCoord_eq (i : Nat) : gCoord i = (i : ℚ) / 255 := by
  unfold gCoord image_height; norm_num

lemma ir_eq (j : Nat) (hj : j ≤ 255) : ir j = j := by
  rw [ir, rCoord_eq, cxxTrunc_mul_eq j hj]

lemma ig_eq (i : Nat) (hi : i ≤ 255) : ig i = i := by
  rw [ig, gCoord_eq, cxxTrunc_mul_eq i hi]

lemma ib_eq : ib = 0 := by
  rw [ib, bCoord, mul_zero, cxxTrunc_eq_floor le_rfl, Int.floor_zero]

lemma pixelLine_eq (i j : Nat) (hi : i ≤ 255) (hj : j ≤ 255) :
    pixelLine i j = toString j ++ " " ++ toString i ++ " " ++ "0" := by
  unfold pixelLine pixelColor
  rw [ir_eq j hj, ig_eq i hi, ib_eq]
  rfl

lemma multiplier_nonneg : (0 : ℚ) ≤ multiplier := by unfold multiplier; norm_num

lemma ir_mono {j j' : Nat} (h : j ≤ j') : ir j ≤ ir j' := by
  have hjj : (j : ℚ) ≤ (j' : ℚ) := by exact_mod_cast h
  have h1 : (0 : ℚ) ≤ multiplier * rCoord j := by
    rw [rCoord_eq]; unfold multiplier; positivity
  have h2 : (0 : ℚ) ≤ multiplier * rCoord j' := by
    rw [rCoord_eq]; unfold multiplier; positivity
  unfold ir
  rw [cxxTrunc_eq_floor h1, cxxTrunc_eq_floor h2]
  apply Int.floor_le_floor
  rw [rCoord_eq, rCoord_eq]
  unfold multiplier
  gcongr

lemma ig_mono {i i' : Nat} (h : i ≤ i') : ig i ≤ ig i' := by
  have hii : (i : ℚ) ≤ (i' : ℚ) := by exact_mod_cast h
  have h1 : (0 : ℚ) ≤ multiplier * gCoord i := by
    rw [gCoord_eq]; unfold multiplier; positivity
  have h2 : (0 : ℚ) ≤ multiplier * gCoord i' := by
    rw [gCoord_eq]; unfold multiplier; positivity
  unfold ig
  rw [cxxTrunc_eq_floor h1, cxxTrunc_eq_floor h2]
  apply Int.floor_le_floor
  rw [gCoord_eq, gCoord_eq]
  unfold multiplier
  gcongr

/-! ### Claim theorems -/

/-- C3: The four corner pixels of the 256x256 image produce exactly the
pixel lines `0 0 0` (top-left), `255 0 0` (top-right), `0 255 0`
(bottom-left) and `255 255 0` (bottom-right). -/
theorem corner_pixel_lines :
    pixelLine 0 0 = "0 0 0" ∧ pixelLine 0 255 = "255 0 0" ∧
      pixelLine 255 0 = "0 255 0" ∧ pixelLine 255 255 = "255 255 0" := by
  refine ⟨?_, ?_, ?_, ?_⟩ <;>
    rw [pixelLine_eq _ _ (by norm_num) (by norm_num)] <;> rfl

/-- C6: For width 256 and height 256 the first three lines of the primary
output are exactly `P3`, `256 256` and `255`, in that order, before any
pixel line. -/
theorem header_lines_exact :
    ppmLines.take 3 = ["P3", "256 256", "255"] ∧
      ppmLines = ["P3", "256 256", "255"] ++ pixelLines := by
  constructor
  · rfl
  · rfl

lemma range_flatMap_map {α : Type} (n m : Nat) (f : Nat → Nat → α) :
    ((List.range n).flatMap fun i => (List.range m).map fun j => f i j) =
      (List.range (n * m)).map fun k => f (k / m) (k % m) := by
  induction n with
  | zero => simp
  | succ n ih =>
    rw [List.range_succ, List.flatMap_append, ih, Nat.succ_mul, List.range_add,
      List.map_append, List.map_map]
    congr 1
    simp only [List.flatMap_cons, List.flatMap_nil, List.append_nil]
    apply List.map_congr_left
    intro k hk
    rw [List.mem_range] at hk
    have hm : 0 < m := lt_of_le_of_lt (Nat.zero_le k) hk
    simp only [Function.comp_apply]
    congr 1
    · rw [Nat.mul_comm n m, Nat.mul_add_div hm, Nat.div_eq_of_lt hk, Nat.add_zero]
    · rw [Nat.mul_comm n m, Nat.mul_add_mod, Nat.mod_eq_of_lt hk]

lemma pixelLines_row_major :
    pixelLines = (List.range 65536).map fun k => pixelLine (k / 256) (k % 256) := by
  have h := range_flatMap_map image_height image_width fun i j => pixelLine i j
  have h65536 : image_height * image_width = 65536 := rfl
  rw [h65536] at h
  exact h

lemma pixelLines_length : pixelLines.length = 65536 := by
  rw [pixelLines_row_major, List.length_map, List.length_range]

/-- C2: After the three header lines the primary output consists of exactly
65536 pixel lines in row-major order: the k-th pixel line (0-based) is the
pixel of row k / 256 and column k % 256, rows top to bottom and columns
left to right. -/
theorem primary_output_row_major :
    ppmLines = headerLines ++ pixelLines ∧ headerLines.length = 3 ∧
      pixelLines.length = 65536 ∧
      ∀ k, k < 65536 → pixelLines[k]? = some (pixelLine (k / 256) (k % 256)) := by
  refine ⟨rfl, rfl, pixelLines_length, ?_⟩
  intro k hk
  rw [pixelLines_row_major, List.getElem?_map, List.getElem?_range hk]
  rfl

/-- Witness for C2 at the concrete index k = 257. -/
theorem primary_output_row_major_witness :
    pixelLines[257]? = some (pixelLine (257 / 256) (257 % 256)) :=
  primary_output_row_major.2.2.2 257 (by norm_num)

/-- C4: Every emitted channel value is the truncation of 255.999 times a
normalized coordinate and lies in [0, 255]; the coordinate 1 maps to 255,
never 256. -/
theorem channel_values_in_range :
    (∀ i j, i < image_height → j < image_width →
        0 ≤ (pixelColor i j).1 ∧ (pixelColor i j).1 ≤ 255 ∧
          0 ≤ (pixelColor i j).2.1 ∧ (pixelColor i j).2.1 ≤ 255 ∧
          0 ≤ (pixelColor i j).2.2 ∧ (pixelColor i j).2.2 ≤ 255) ∧
      cxxTrunc (multiplier * 1) = 255 := by
  constructor
  · intro i j hi hj
    have hi2 : i < 256 := hi
    have hj2 : j < 256 := hj
    have hi' : i ≤ 255 := by omega
    have hj' : j ≤ 255 := by omega
    refine ⟨?_, ?_, ?_, ?_, ?_, ?_⟩
    · show (0 : ℤ) ≤ ir j
      rw [ir_eq j hj']; exact Int.natCast_nonneg j
    · show ir j ≤ 255
      rw [ir_eq j hj']; exact_mod_cast hj'
    · show (0 : ℤ) ≤ ig i
      rw [ig_eq i hi']; exact Int.natCast_nonneg i
    · show ig i ≤ 255
      rw [ig_eq i hi']; exact_mod_cast hi'
    · show (0 : ℤ) ≤ ib
      rw [ib_eq]
    · show ib ≤ 255
      rw [ib_eq]; norm_num
  · rw [mul_one, cxxTrunc_eq_floor multiplier_nonneg]
    unfold multiplier
    rw [Int.floor_eq_iff]
    constructor <;> norm_num

/-- Witness for C4 at the pixel of row 10, column 20. -/
theorem channel_values_in_range_witness :
    0 ≤ (pixelColor 10 20).1 ∧ (pixelColor 10 20).1 ≤ 255 ∧
      0 ≤ (pixelColor 10 20).2.1 ∧ (pixelColor 10 20).2.1 ≤ 255 ∧
      0 ≤ (pixelColor 10 20).2.2 ∧ (pixelColor 10 20).2.2 ≤ 255 :=
  channel_values_in_range.1 10 20 (by decide) (by decide)

/-- C5: For a fixed row the red channel is non-decreasing in the column,
for a fixed column the green channel is non-decreasing in the row, and the
blue channel is 0 for every pixel. -/
theorem gradient_monotone :
    (∀ i j j', j ≤ j' → (pixelColor i j).1 ≤ (pixelColor i j').1) ∧
      (∀ j i i', i ≤ i' → (pixelColor i j).2.1 ≤ (pixelColor i' j).2.1) ∧
      ∀ i j, (pixelColor i j).2.2 = 0 := by
  refine ⟨fun i j j' h => ?_, fun j i i' h => ?_, fun i j => ?_⟩
  · show ir j ≤ ir j'
    exact ir_mono h
  · show ig i ≤ ig i'
    exact ig_mono h
  · show ib = 0
    exact ib_eq

/-- Witness for C5 with columns 1 ≤ 2 and rows 1 ≤ 2. -/
theorem gradient_monotone_witness :
    (pixelColor 0 1).1 ≤ (pixelColor 0 2).1 ∧
      (pixelColor 1 0).2.1 ≤ (pixelColor 2 0).2.1 :=
  ⟨gradient_monotone.1 0 1 2 (by norm_num), gradient_monotone.2.1 0 1 2 (by norm_num)⟩

/-- C8: Truncating 255.999 * (k/255) recovers k for every 0 ≤ k ≤ 255, so
the pixel line emitted for row i and column j is exactly the text
j, space, i, space, 0. -/
theorem pixel_lines_are_coordinates :
    (∀ k : Nat, k ≤ 255 → cxxTrunc (multiplier * ((k : ℚ) / 255)) = k) ∧
      ∀ i j, i ≤ 255 → j ≤ 255 →
        pixelLine i j = toString j ++ " " ++ toString i ++ " " ++ "0" :=
  ⟨cxxTrunc_mul_eq, fun i j hi hj => pixelLine_eq i j hi hj⟩

/-- Witness for C8 at k = 7 and the pixel of row 3, column 5. -/
theorem pixel_lines_are_coordinates_witness :
    cxxTrunc (multiplier * (((7 : Nat) : ℚ) / 255)) = ((7 : Nat) : ℤ) ∧
      pixelLine 3 5 = toString 5 ++ " " ++ toString 3 ++ " " ++ "0" :=
  ⟨pixel_lines_are_coordinates.1 7 (by norm_num),
    pixel_lines_are_coordinates.2 3 5 (by norm_num) (by norm_num)⟩

/-- C9: With both dimensions fixed at 256 the normalization divisors are
nonzero, and every normalized coordinate lies in [0, 1]. -/
theorem normalization_in_unit_interval :
    ((image_width : ℚ) - 1 ≠ 0) ∧ ((image_height : ℚ) - 1 ≠ 0) ∧
      ∀ i j, i < image_height → j < image_width →
        0 ≤ rCoord j ∧ rCoord j ≤ 1 ∧ 0 ≤ gCoord i ∧ gCoord i ≤ 1 := by
  refine ⟨by unfold image_width; norm_num, by unfold image_height; norm_num, ?_⟩
  intro i j hi hj
  have hi2 : i < 256 := hi
  have hj2 : j < 256 := hj
  have hi' : (i : ℚ) ≤ 255 := by exact_mod_cast Nat.le_of_lt_succ hi2
  have hj' : (j : ℚ) ≤ 255 := by exact_mod_cast Nat.le_of_lt_succ hj2
  refine ⟨?_, ?_, ?_, ?_⟩
  · rw [rCoord_eq]; positivity
  · rw [rCoord_eq, div_le_one (by norm_num : (0 : ℚ) < 255)]; exact hj'
  · rw [gCoord_eq]; positivity
  · rw [gCoord_eq, div_le_one (by norm_num : (0 : ℚ) < 255)]; exact hi'

/-- Witness for C9 at the bottom-right pixel. -/
theorem normalization_in_unit_interval_witness :
    0 ≤ rCoord 255 ∧ rCoord 255 ≤ 1 ∧ 0 ≤ gCoord 255 ∧ gCoord 255 ≤ 1 :=
  normalization_in_unit_interval.2.2 255 255 (by decide) (by decide)

/-- C1 (code bug evidence): the source prints the constant
image_height - 1 = 255 in every progress line, so the reported count never
equals the actual number of scanlines remaining once i differs from 1; at
row 2 the program reports 255 while 254 scanlines remain. -/
theorem progress_count_is_constant :
    (∀ i, scanlinesReported i = 255) ∧
      scanlinesReported 2 = 255 ∧ image_height - 2 = 254 ∧
      scanlinesReported 2 ≠ image_height - 2 :=
  ⟨fun _ => rfl, rfl, rfl, by decide⟩

/-- C7: The emitter is deterministic: runs from any two worlds (stdin,
clock, randomness) produce the identical trace and exit code, because the
program consults no external input. -/
theorem emitter_deterministic :
    ∀ w₁ w₂ : World, runMain w₁ = runMain w₂ := fun _ _ => rfl

lemma filterMap_flatMap {α β γ : Type} (l : List α) (g : α → List β)
    (f : β → Option γ) :
    (l.flatMap g).filterMap f = l.flatMap fun a => (g a).filterMap f := by
  induction l with
  | nil => rfl
  | cons a l ih => simp [List.flatMap_cons, List.filterMap_append, ih]

lemma primaryLines_append (t u : List Event) :
    primaryLines (t ++ u) = primaryLines t ++ primaryLines u :=
  List.filterMap_append t u _

lemma primaryLines_flatMap {α : Type} (l : List α) (g : α → List Event) :
    primaryLines (l.flatMap g) = l.flatMap fun a => primaryLines (g a) :=
  filterMap_flatMap l g _

lemma primaryLines_map_primary (l : List String) :
    primaryLines (l.map Event.primary) = l := by
  unfold primaryLines
  rw [List.filterMap_map]
  exact List.filterMap_some l

lemma primaryLines_map_mk {α : Type} (f : α → String) (l : List α) :
    primaryLines (l.map fun a => Event.primary (f a)) = l.map f := by
  unfold primaryLines
  rw [List.filterMap_map]
  exact congrFun (List.filterMap_eq_map f) l

lemma primaryLines_rowEvents (i : Nat) :
    primaryLines (rowEvents i) =
      (List.range image_width).map fun j => pixelLine i j := by
  have hcons : primaryLines (rowEvents i) =
      primaryLines ((List.range image_width).map fun j =>
        Event.primary (pixelLine i j)) := rfl
  rw [hcons]
  exact primaryLines_map_mk (fun j => pixelLine i j) (List.range image_width)

lemma primaryLines_eventTrace : primaryLines eventTrace = ppmLines := by
  unfold eventTrace
  rw [primaryLines_append, primaryLines_append, primaryLines_map_primary,
    primaryLines_flatMap]
  have hdiag : primaryLines [Event.diag doneLine] = [] := rfl
  rw [hdiag, List.append_nil]
  have hfun : (fun a => primaryLines (rowEvents a)) =
      fun i => (List.range image_width).map fun j => pixelLine i j :=
    funext primaryLines_rowEvents
  rw [hfun]
  rfl

set_option maxRecDepth 8192 in
lemma progressLine_ne_doneLine (i : Nat) : progressLine i ≠ doneLine := by
  unfold progressLine scanlinesReported doneLine image_height
  decide

/-- C10: The completion diagnostic is the last write of the run, it occurs
exactly once in the trace, the primary stream already holds the whole
image when it is written, and the process exits with code 0. -/
theorem completion_last_then_exit_zero :
    primaryLines eventTrace = ppmLines ∧
      eventTrace.getLast? = some (Event.diag doneLine) ∧
      eventTrace.count (Event.diag doneLine) = 1 ∧
      exitCode = 0 := by
  refine ⟨primaryLines_eventTrace, ?_, ?_, rfl⟩
  · unfold eventTrace
    rw [List.getLast?_concat]
  · unfold eventTrace
    rw [List.count_append, List.count_append]
    have h1 : (headerLines.map Event.primary).count (Event.diag doneLine) = 0 := by
      rw [List.count_eq_zero, List.mem_map]
      rintro ⟨s, -, hs⟩
      cases hs
    have h2 : ((List.range image_height).flatMap rowEvents).count
        (Event.diag doneLine) = 0 := by
      rw [List.count_eq_zero, List.mem_flatMap]
      rintro ⟨i, -, hmem⟩
      unfold rowEvents at hmem
      rcases List.mem_cons.mp hmem with h | h
      · have h' : doneLine = progressLine i := by injection h
        exact progressLine_ne_doneLine i h'.symm
      · rw [List.mem_map] at h
        obtain ⟨j, -, hj⟩ := h
        cases hj
    have h3 : List.count (Event.diag doneLine) [Event.diag doneLine] = 1 := by
      rw [List.count_singleton]
      simp
    rw [h1, h2, h3]

end GradientPPM
